import Mathlib

/-!
Quadrature encoder interface (QEI.cpp)

A shallow embedding of the decoder in `QEI.cpp`: the object's member variables
become a structure, every member function becomes a function on that
structure, and the two channel reads performed inside the constructor and
inside `encode` become explicit arguments (the levels the pins report).

`pulses_` and `revolutions_` are C `int`s. `QEI.encode` and `QEI.index` embed
them as unbounded integers, for the statements that are about one step or that
take the counter as unbounded. `QEI.encode32` and `QEI.index32` are the same
functions with the 32-bit width of `int` made explicit (`wrapInt32` after every
increment or decrement); statements about what a counter holds after a run of
arbitrary length are made about these.
-/

/-- Modelled from the spec: the `Encoding` enumeration is declared in `QEI.h`, which is
not part of the sources; the spec gives the two modes, `Two` and `Four`, and
`QEI.cpp` names them `X2_ENCODING` and `X4_ENCODING`. -/
inductive Encoding where
  | X2_ENCODING
  | X4_ENCODING
  deriving DecidableEq, Repr

open Encoding

/-- Modelled from the spec: `PREV_MASK` is defined in `QEI.h`, which is not part of the
sources; the spec says the direction uses "bit 0 of `previous_state`". -/
def PREV_MASK : Nat := 0x1

/-- Modelled from the spec: `CURR_MASK` is defined in `QEI.h`, which is not part of the
sources; the spec says the direction uses "bit 1 of `current_state`". -/
def CURR_MASK : Nat := 0x2

/-- Modelled from the spec: `INVALID` is defined in `QEI.h`, which is not part of the
sources; the spec gives the value representing "both bits changed", `0b11`. -/
def INVALID : Nat := 0x3

/-- The member variables of class `QEI` that `QEI.cpp` reads or writes. -/
structure QEI where
  encoding_ : Encoding
  prevState_ : Nat
  currState_ : Nat
  pulses_ : Int
  pulsesPerRev_ : Int
  revolutions_ : Int
  deriving DecidableEq, Repr

/-- The constructor `QEI::QEI` (lines 3-40), named `QEI.init` because a
definition `QEI.QEI` would shadow the structure inside its own namespace.
`chanA` and `chanB` are the values returned by `channelA_.read()` and
`channelB_.read()`. -/
def QEI.init (chanA chanB : Nat) (pulsesPerRev : Int) (encoding : Encoding) : QEI :=
  let currState := (chanA <<< 1) ||| chanB
  { encoding_ := encoding
    prevState_ := currState
    currState_ := currState
    pulses_ := 0
    pulsesPerRev_ := pulsesPerRev
    revolutions_ := 0 }

/-- The member function `QEI::reset` (lines 42-47). -/
def QEI.reset (q : QEI) : QEI :=
  { q with pulses_ := 0, revolutions_ := 0 }

/-- The member function `QEI::getCurrentState` (lines 49-53). -/
def QEI.getCurrentState (q : QEI) : Nat := q.currState_

/-- The member function `QEI::getPulses` (lines 55-59). -/
def QEI.getPulses (q : QEI) : Int := q.pulses_

/-- The member function `QEI::getRevolutionCount` (lines 67-71). -/
def QEI.getRevolutionCount (q : QEI) : Int := q.revolutions_

/-- The member function `QEI::encode` (lines 117-162), the transition handler.
`chanA` and `chanB` are the values returned by the two channel reads. -/
def QEI.encode (q : QEI) (chanA chanB : Nat) : QEI :=
  let currState := (chanA <<< 1) ||| chanB
  let pulses : Int :=
    match q.encoding_ with
    | X2_ENCODING =>
      if (q.prevState_ = 0x3 ∧ currState = 0x0) ∨
          (q.prevState_ = 0x0 ∧ currState = 0x3) then
        q.pulses_ + 1
      else if (q.prevState_ = 0x2 ∧ currState = 0x1) ∨
          (q.prevState_ = 0x1 ∧ currState = 0x2) then
        q.pulses_ - 1
      else
        q.pulses_
    | X4_ENCODING =>
      if (currState ^^^ q.prevState_) ≠ INVALID ∧ currState ≠ q.prevState_ then
        let change : Int :=
          (((q.prevState_ &&& PREV_MASK) ^^^ ((currState &&& CURR_MASK) >>> 1) : Nat) : Int)
        let change : Int := if change = 0 then -1 else change
        q.pulses_ - change
      else
        q.pulses_
  { q with currState_ := currState, pulses_ := pulses, prevState_ := currState }

/-- The member function `QEI::index` (lines 164-168), the index handler. -/
def QEI.index (q : QEI) : QEI :=
  { q with revolutions_ := q.revolutions_ + 1 }

/-- The transition handler invoked when the pins show the 2-bit state `s`:
channel A reads bit 1 of `s` and channel B reads bit 0. -/
def QEI.sample (q : QEI) (s : Nat) : QEI :=
  q.encode (s >>> 1) (s &&& 1)

/-- One invocation of the transition handler per sampled state, in order. -/
def QEI.samples (q : QEI) (ss : List Nat) : QEI :=
  ss.foldl QEI.sample q

/-- The states sampled along `n` repetitions of a cycle of states. -/
def cycles (cycle : List Nat) : Nat → List Nat
  | 0 => []
  | n + 1 => cycle ++ cycles cycle n

/-- The states sampled along the forward cycle 00 -> 01 -> 11 -> 10 -> 00. -/
def forwardCycle : List Nat := [0b01, 0b11, 0b10, 0b00]

/-- The states sampled along the reverse cycle 00 -> 10 -> 11 -> 01 -> 00. -/
def reverseCycle : List Nat := [0b10, 0b11, 0b01, 0b00]

/-- The `n` states sampled after state `s` when every sample is the complement
of the previous one. -/
def alternating (s : Nat) : Nat → List Nat
  | 0 => []
  | n + 1 => (s ^^^ 0x3) :: alternating (s ^^^ 0x3) n

/-- The pulse delta of one transition-handler invocation that finds
`prevState_ = p` and samples the state `c`, read off `QEI.encode` itself. -/
def pulseDelta (enc : Encoding) (p c : Nat) : Int :=
  (QEI.sample
    { encoding_ := enc, prevState_ := p, currState_ := p, pulses_ := 0,
      pulsesPerRev_ := 1, revolutions_ := 0 } c).pulses_

/-- The calls a decoder can receive after construction: the transition handler
`encode` with the two levels it reads, the index handler, and `reset`. -/
inductive Event where
  | encode (chanA chanB : Nat)
  | index
  | reset
  deriving DecidableEq, Repr

/-- The effect of one call on the decoder. -/
def QEI.step (q : QEI) : Event → QEI
  | Event.encode chanA chanB => q.encode chanA chanB
  | Event.index => q.index
  | Event.reset => q.reset

/-- The effect of a sequence of calls, in order. -/
def QEI.run (q : QEI) (es : List Event) : QEI :=
  es.foldl QEI.step q

/-- Whether a call is an invocation of the transition handler. -/
def Event.isEncode : Event → Bool
  | Event.encode _ _ => true
  | _ => false

/-- Whether a call is an invocation of the index handler. -/
def Event.isIndex : Event → Bool
  | Event.index => true
  | _ => false

/-- Whether the levels a call reads are pin levels, 0 or 1. -/
def Event.levelsOk : Event → Prop
  | Event.encode chanA chanB => chanA < 2 ∧ chanB < 2
  | _ => True

instance (e : Event) : Decidable e.levelsOk := by
  cases e <;> unfold Event.levelsOk <;> infer_instance

/-- The value of `change` that the X4 branch of `QEI::encode` subtracts from
`pulses_` (lines 149-153), for `prevState_ = p` and `currState_ = c`. -/
def directionValue (p c : Nat) : Int :=
  let change : Int := (((p &&& PREV_MASK) ^^^ ((c &&& CURR_MASK) >>> 1) : Nat) : Int)
  if change = 0 then -1 else change

/-- The position of a state on the Gray cycle 00 01 11 10 of the doc comment
above `QEI::encode` (line 103). -/
def pos (s : Nat) : Int :=
  if s = 0b00 then 0 else if s = 0b01 then 1 else if s = 0b11 then 2 else 3

/-- The number of double-bit transitions (`c XOR p = INVALID`) in a sequence of
sampled states that starts after state `p`. -/
def illegalCount (p : Nat) : List Nat → Nat
  | [] => 0
  | c :: cs => (if c ^^^ p = INVALID then 1 else 0) + illegalCount c cs

/-- The interrupts raised when the lines move from state `old` to state `new`, as
attached by the constructor (lines 26-34): the transition handler runs on a rise or
fall of channel A (bit 1 of the state) and, in X4 encoding only, on a rise or fall of
channel B (bit 0); every run samples the new levels. -/
def QEI.edge (q : QEI) (old new : Nat) : QEI :=
  let q1 := if (old >>> 1) ≠ (new >>> 1) then q.sample new else q
  if q.encoding_ = X4_ENCODING ∧ (old &&& 1) ≠ (new &&& 1) then q1.sample new else q1

/-- The decoder and the line state after the lines, starting in state `lines`, pass
through the states of `path` one after the other. -/
def QEI.walk (q : QEI) (lines : Nat) (path : List Nat) : QEI × Nat :=
  path.foldl (fun st s => (st.1.edge st.2 s, s)) (q, lines)

/-- The direction bit in the words of the spec, for comparison with
`directionValue`: bit 0 of the previous state XOR bit 1 of the current state. -/
def specDirectionBit (p c : Nat) : Nat :=
  (p % 2) ^^^ ((c / 2) % 2)

/-- The value a 32-bit `int` holds after an arithmetic result `x`: the representative
of `x` modulo 2^32 in the range -2^31 .. 2^31 - 1. (C++ leaves signed overflow
undefined; this is the two's-complement wrap-around of the `int` counters.) -/
def wrapInt32 (x : Int) : Int :=
  (x + 2147483648) % 4294967296 - 2147483648

/-- The member function `QEI::encode` (lines 117-162) with `pulses_` as a 32-bit `int`:
`pulses_++`, `pulses_--` and `pulses_ -= change` store the wrapped result. -/
def QEI.encode32 (q : QEI) (chanA chanB : Nat) : QEI :=
  let currState := (chanA <<< 1) ||| chanB
  let pulses : Int :=
    match q.encoding_ with
    | X2_ENCODING =>
      if (q.prevState_ = 0x3 ∧ currState = 0x0) ∨
          (q.prevState_ = 0x0 ∧ currState = 0x3) then
        wrapInt32 (q.pulses_ + 1)
      else if (q.prevState_ = 0x2 ∧ currState = 0x1) ∨
          (q.prevState_ = 0x1 ∧ currState = 0x2) then
        wrapInt32 (q.pulses_ - 1)
      else
        q.pulses_
    | X4_ENCODING =>
      if (currState ^^^ q.prevState_) ≠ INVALID ∧ currState ≠ q.prevState_ then
        let change : Int :=
          (((q.prevState_ &&& PREV_MASK) ^^^ ((currState &&& CURR_MASK) >>> 1) : Nat) : Int)
        let change : Int := if change = 0 then -1 else change
        wrapInt32 (q.pulses_ - change)
      else
        q.pulses_
  { q with currState_ := currState, pulses_ := pulses, prevState_ := currState }

/-- The member function `QEI::index` (lines 164-168) with `revolutions_` as a 32-bit
`int`: `revolutions_++` stores the wrapped result. -/
def QEI.index32 (q : QEI) : QEI :=
  { q with revolutions_ := wrapInt32 (q.revolutions_ + 1) }

/-- The effect of one call on the decoder with 32-bit counters. -/
def QEI.step32 (q : QEI) : Event → QEI
  | Event.encode chanA chanB => q.encode32 chanA chanB
  | Event.index => q.index32
  | Event.reset => q.reset

/-- The effect of a sequence of calls on the decoder with 32-bit counters. -/
def QEI.run32 (q : QEI) (es : List Event) : QEI :=
  es.foldl QEI.step32 q

/-- The transition handler with 32-bit counters, invoked when the pins show the 2-bit
state `s`. -/
def QEI.sample32 (q : QEI) (s : Nat) : QEI :=
  q.encode32 (s >>> 1) (s &&& 1)

/-- The interrupts of `QEI.edge`, for the decoder with 32-bit counters. -/
def QEI.edge32 (q : QEI) (old new : Nat) : QEI :=
  let q1 := if (old >>> 1) ≠ (new >>> 1) then q.sample32 new else q
  if q.encoding_ = X4_ENCODING ∧ (old &&& 1) ≠ (new &&& 1) then q1.sample32 new else q1

/-- The walk of `QEI.walk`, for the decoder with 32-bit counters. -/
def QEI.walk32 (q : QEI) (lines : Nat) (path : List Nat) : QEI × Nat :=
  path.foldl (fun st s => (st.1.edge32 st.2 s, s)) (q, lines)

/-- A decoder state with both counters reduced to the 32-bit range. -/
def QEI.wrap32 (q : QEI) : QEI :=
  { q with pulses_ := wrapInt32 q.pulses_, revolutions_ := wrapInt32 q.revolutions_ }

/-- Two decoder states that agree on everything except `revolutions_`. -/
def sameDecoding (q r : QEI) : Prop :=
  q.encoding_ = r.encoding_ ∧ q.prevState_ = r.prevState_ ∧ q.currState_ = r.currState_ ∧
    q.pulses_ = r.pulses_ ∧ q.pulsesPerRev_ = r.pulsesPerRev_

/-! ## The transition handler, one invocation -/

theorem state_of_levels (s : Nat) : ((s >>> 1) <<< 1) ||| (s &&& 1) = s := by
  rw [Nat.shiftRight_eq_div_pow, Nat.shiftLeft_eq, Nat.and_one_is_mod, Nat.mul_comm,
    ← Nat.mul_add_lt_is_or (Nat.mod_lt s (by decide)) (s / 2 ^ 1)]
  omega

theorem sample_currState (q : QEI) (s : Nat) : (q.sample s).currState_ = s :=
  state_of_levels s

theorem sample_prevState (q : QEI) (s : Nat) : (q.sample s).prevState_ = s :=
  state_of_levels s

theorem sample_encoding (q : QEI) (s : Nat) : (q.sample s).encoding_ = q.encoding_ :=
  rfl

theorem sample_pulses (q : QEI) (s : Nat) :
    (q.sample s).pulses_ = q.pulses_ + pulseDelta q.encoding_ q.prevState_ s := by
  obtain ⟨enc, p, c, n, ppr, r⟩ := q
  cases enc <;>
    simp only [pulseDelta, QEI.sample, QEI.encode, state_of_levels] <;>
    split_ifs <;> omega

/-! ## Runs of the transition handler -/

theorem samples_nil (q : QEI) : q.samples [] = q := rfl

theorem samples_cons (q : QEI) (s : Nat) (ss : List Nat) :
    q.samples (s :: ss) = (q.sample s).samples ss := rfl

theorem samples_append (q : QEI) (ss ts : List Nat) :
    q.samples (ss ++ ts) = (q.samples ss).samples ts := by
  simp [QEI.samples, List.foldl_append]

theorem samples_encoding (ss : List Nat) (q : QEI) :
    (q.samples ss).encoding_ = q.encoding_ := by
  induction ss generalizing q with
  | nil => rfl
  | cons s ss ih => rw [samples_cons, ih, sample_encoding]

/-- In X4 encoding one pass along 00 -> 01 -> 11 -> 10 -> 00 counts four pulses up
and ends in state 00 again. -/
theorem forwardCycle_X4 (q : QEI) (henc : q.encoding_ = X4_ENCODING)
    (hprev : q.prevState_ = 0) :
    (q.samples forwardCycle).pulses_ = q.pulses_ + 4 ∧
      (q.samples forwardCycle).prevState_ = 0 := by
  have h1 : pulseDelta X4_ENCODING 0 1 = 1 := by decide
  have h2 : pulseDelta X4_ENCODING 1 3 = 1 := by decide
  have h3 : pulseDelta X4_ENCODING 3 2 = 1 := by decide
  have h4 : pulseDelta X4_ENCODING 2 0 = 1 := by decide
  simp only [forwardCycle, samples_cons, samples_nil, sample_pulses, sample_prevState,
    sample_encoding, henc, hprev, h1, h2, h3, h4]
  exact ⟨by omega, trivial⟩

/-- In X4 encoding one pass along 00 -> 10 -> 11 -> 01 -> 00 counts four pulses down
and ends in state 00 again. -/
theorem reverseCycle_X4 (q : QEI) (henc : q.encoding_ = X4_ENCODING)
    (hprev : q.prevState_ = 0) :
    (q.samples reverseCycle).pulses_ = q.pulses_ - 4 ∧
      (q.samples reverseCycle).prevState_ = 0 := by
  have h1 : pulseDelta X4_ENCODING 0 2 = -1 := by decide
  have h2 : pulseDelta X4_ENCODING 2 3 = -1 := by decide
  have h3 : pulseDelta X4_ENCODING 3 1 = -1 := by decide
  have h4 : pulseDelta X4_ENCODING 1 0 = -1 := by decide
  simp only [reverseCycle, samples_cons, samples_nil, sample_pulses, sample_prevState,
    sample_encoding, henc, hprev, h1, h2, h3, h4]
  exact ⟨by omega, trivial⟩

theorem forwardCycles_X4 (N : Nat) (q : QEI) (henc : q.encoding_ = X4_ENCODING)
    (hprev : q.prevState_ = 0) :
    (q.samples (cycles forwardCycle N)).pulses_ = q.pulses_ + 4 * (N : Int) := by
  induction N generalizing q with
  | zero => simp [cycles, samples_nil]
  | succ n ih =>
    obtain ⟨hp, hs⟩ := forwardCycle_X4 q henc hprev
    rw [cycles, samples_append, ih _ (by rw [samples_encoding, henc]) hs, hp]
    push_cast
    ring

theorem reverseCycles_X4 (N : Nat) (q : QEI) (henc : q.encoding_ = X4_ENCODING)
    (hprev : q.prevState_ = 0) :
    (q.samples (cycles reverseCycle N)).pulses_ = q.pulses_ - 4 * (N : Int) := by
  induction N generalizing q with
  | zero => simp [cycles, samples_nil]
  | succ n ih =>
    obtain ⟨hp, hs⟩ := reverseCycle_X4 q henc hprev
    rw [cycles, samples_append, ih _ (by rw [samples_encoding, henc]) hs, hp]
    push_cast
    ring

theorem alternating_X2_up (N : Nat) (s : Nat) (q : QEI) (henc : q.encoding_ = X2_ENCODING)
    (hprev : q.prevState_ = s) (hs : s = 0x3 ∨ s = 0x0) :
    (q.samples (alternating s N)).pulses_ = q.pulses_ + (N : Int) := by
  induction N generalizing q s with
  | zero => simp [alternating, samples_nil]
  | succ n ih =>
    have hd : pulseDelta X2_ENCODING s (s ^^^ 0x3) = 1 := by
      rcases hs with h | h <;> subst h <;> decide
    have hs2 : s ^^^ 0x3 = 0x3 ∨ s ^^^ 0x3 = 0x0 := by
      rcases hs with h | h <;> subst h <;> decide
    rw [alternating, samples_cons,
      ih (s ^^^ 0x3) (q.sample (s ^^^ 0x3)) (by rw [sample_encoding, henc])
        (sample_prevState _ _) hs2,
      sample_pulses, henc, hprev, hd]
    push_cast
    ring

theorem alternating_X2_down (N : Nat) (s : Nat) (q : QEI) (henc : q.encoding_ = X2_ENCODING)
    (hprev : q.prevState_ = s) (hs : s = 0x2 ∨ s = 0x1) :
    (q.samples (alternating s N)).pulses_ = q.pulses_ - (N : Int) := by
  induction N generalizing q s with
  | zero => simp [alternating, samples_nil]
  | succ n ih =>
    have hd : pulseDelta X2_ENCODING s (s ^^^ 0x3) = -1 := by
      rcases hs with h | h <;> subst h <;> decide
    have hs2 : s ^^^ 0x3 = 0x2 ∨ s ^^^ 0x3 = 0x1 := by
      rcases hs with h | h <;> subst h <;> decide
    rw [alternating, samples_cons,
      ih (s ^^^ 0x3) (q.sample (s ^^^ 0x3)) (by rw [sample_encoding, henc])
        (sample_prevState _ _) hs2,
      sample_pulses, henc, hprev, hd]
    push_cast
    ring

/-! ## Four-mode cycles -/

/-- C1, as stated, fails: a decoder constructed in X4 encoding with both lines low
(`pulses_ = 0`, `prevState_ = currState_ = 00`) and driven once along the forward cycle
00 -> 01 -> 11 -> 10 -> 00 (N = 1, four invocations) ends with `pulses_ = 4`, not `-1`. -/
theorem C1_forward_cycle_counterexample :
    (QEI.init 0 0 1 X4_ENCODING).pulses_ = 0 ∧
    (QEI.init 0 0 1 X4_ENCODING).prevState_ = 0b00 ∧
    (QEI.init 0 0 1 X4_ENCODING).currState_ = 0b00 ∧
    ((QEI.init 0 0 1 X4_ENCODING).samples (cycles forwardCycle 1)).pulses_ = 4 ∧
    ((QEI.init 0 0 1 X4_ENCODING).samples (cycles forwardCycle 1)).pulses_ ≠ -((1 : Nat) : Int) := by
  decide

/-- C1, amended: in X4 encoding, for every N, starting from `pulses_ = 0` and
`prevState_ = currState_ = 00`, one transition-handler invocation per sampled state along
the forward cycle 00 -> 01 -> 11 -> 10 -> 00 repeated N times (4N invocations) ends with
a pulse count of magnitude 4N: every one of the four transitions of a cycle is counted. -/
theorem C1_forward_cycle_magnitude (N : Nat) (q : QEI) (henc : q.encoding_ = X4_ENCODING)
    (hpulses : q.pulses_ = 0) (hprev : q.prevState_ = 0b00) (_hcurr : q.currState_ = 0b00) :
    (q.samples (cycles forwardCycle N)).pulses_.natAbs = 4 * N := by
  rw [forwardCycles_X4 N q henc hprev, hpulses]
  omega

theorem C1_forward_cycle_magnitude_witness :
    ((QEI.init 0 0 1 X4_ENCODING).samples (cycles forwardCycle 3)).pulses_.natAbs = 4 * 3 :=
  C1_forward_cycle_magnitude 3 (QEI.init 0 0 1 X4_ENCODING) rfl rfl rfl rfl

/-- C2, as stated, fails: a decoder constructed in X4 encoding with both lines low
(`pulses_ = 0`, `prevState_ = currState_ = 00`) and driven once along the reverse cycle
00 -> 10 -> 11 -> 01 -> 00 (N = 1, four invocations) ends with `pulses_ = -4`, not `+1`. -/
theorem C2_reverse_cycle_counterexample :
    (QEI.init 0 0 1 X4_ENCODING).pulses_ = 0 ∧
    (QEI.init 0 0 1 X4_ENCODING).prevState_ = 0b00 ∧
    (QEI.init 0 0 1 X4_ENCODING).currState_ = 0b00 ∧
    ((QEI.init 0 0 1 X4_ENCODING).samples (cycles reverseCycle 1)).pulses_ = -4 ∧
    ((QEI.init 0 0 1 X4_ENCODING).samples (cycles reverseCycle 1)).pulses_ ≠ ((1 : Nat) : Int) := by
  decide

/-- C2, amended: in X4 encoding, for every N, starting from `pulses_ = 0` and
`prevState_ = currState_ = 00`, one transition-handler invocation per sampled state along
the reverse cycle 00 -> 10 -> 11 -> 01 -> 00 repeated N times (4N invocations) ends with
a pulse count of magnitude 4N: every one of the four transitions of a cycle is counted. -/
theorem C2_reverse_cycle_magnitude (N : Nat) (q : QEI) (henc : q.encoding_ = X4_ENCODING)
    (hpulses : q.pulses_ = 0) (hprev : q.prevState_ = 0b00) (_hcurr : q.currState_ = 0b00) :
    (q.samples (cycles reverseCycle N)).pulses_.natAbs = 4 * N := by
  rw [reverseCycles_X4 N q henc hprev, hpulses]
  omega

theorem C2_reverse_cycle_magnitude_witness :
    ((QEI.init 0 0 1 X4_ENCODING).samples (cycles reverseCycle 3)).pulses_.natAbs = 4 * 3 :=
  C2_reverse_cycle_magnitude 3 (QEI.init 0 0 1 X4_ENCODING) rfl rfl rfl rfl

/-- C3, the code at the failing inputs: in X4 encoding, from `pulses_ = 0`, each of the
four state changes read left to right in 00 01 11 10 00 leaves `pulses_ = +1` (the doc
comment says one pulse negative), and each of the four read right to left leaves
`pulses_ = -1` (the doc comment says one pulse positive). -/
theorem C3_X4_direction_evaluated :
    (((QEI.init 0 0 1 X4_ENCODING).encode 0 1).pulses_ = 1 ∧
      ((QEI.init 0 1 1 X4_ENCODING).encode 1 1).pulses_ = 1 ∧
      ((QEI.init 1 1 1 X4_ENCODING).encode 1 0).pulses_ = 1 ∧
      ((QEI.init 1 0 1 X4_ENCODING).encode 0 0).pulses_ = 1) ∧
    (((QEI.init 0 0 1 X4_ENCODING).encode 1 0).pulses_ = -1 ∧
      ((QEI.init 1 0 1 X4_ENCODING).encode 1 1).pulses_ = -1 ∧
      ((QEI.init 1 1 1 X4_ENCODING).encode 0 1).pulses_ = -1 ∧
      ((QEI.init 0 1 1 X4_ENCODING).encode 0 0).pulses_ = -1) := by
  decide

/-! ## Two-mode alternations -/

/-- C4: in X2 encoding, for every N and every start state `s` in {11, 00}, starting from
`pulses_ = 0` and `prevState_ = s`, the transition handler run on N successive samples,
each the complement of the previous one (so alternating between 11 and 00), ends with
`pulses_ = +N`. -/
theorem C4_X2_alternating_11_00 (N s : Nat) (q : QEI) (henc : q.encoding_ = X2_ENCODING)
    (hpulses : q.pulses_ = 0) (hprev : q.prevState_ = s) (hs : s = 0b11 ∨ s = 0b00) :
    (q.samples (alternating s N)).pulses_ = (N : Int) := by
  rw [alternating_X2_up N s q henc hprev hs, hpulses]
  omega

theorem C4_X2_alternating_11_00_witness :
    alternating 0b11 5 = [0b00, 0b11, 0b00, 0b11, 0b00] ∧
    ((QEI.init 1 1 1 X2_ENCODING).samples (alternating 0b11 5)).pulses_ = ((5 : Nat) : Int) :=
  ⟨by decide,
    C4_X2_alternating_11_00 5 0b11 (QEI.init 1 1 1 X2_ENCODING) rfl rfl rfl (Or.inl rfl)⟩

/-- C5: in X2 encoding, for every N and every start state `s` in {10, 01}, starting from
`pulses_ = 0` and `prevState_ = s`, the transition handler run on N successive samples
alternating between 10 and 01 ends with `pulses_ = -N`. -/
theorem C5_X2_alternating_10_01 (N s : Nat) (q : QEI) (henc : q.encoding_ = X2_ENCODING)
    (hpulses : q.pulses_ = 0) (hprev : q.prevState_ = s) (hs : s = 0b10 ∨ s = 0b01) :
    (q.samples (alternating s N)).pulses_ = -(N : Int) := by
  rw [alternating_X2_down N s q henc hprev hs, hpulses]
  omega

theorem C5_X2_alternating_10_01_witness :
    alternating 0b10 5 = [0b01, 0b10, 0b01, 0b10, 0b01] ∧
    ((QEI.init 1 0 1 X2_ENCODING).samples (alternating 0b10 5)).pulses_ = -((5 : Nat) : Int) :=
  ⟨by decide,
    C5_X2_alternating_10_01 5 0b10 (QEI.init 1 0 1 X2_ENCODING) rfl rfl rfl (Or.inl rfl)⟩

/-! ## Ignored transitions -/

/-- C6: in X2 encoding, for every `prevState_ = p` and sampled state `c` in {0,1,2,3}
such that `(p, c)` is none of (11,00), (00,11), (10,01), (01,10) - every pair with
`p = c` included - one invocation of the transition handler leaves `pulses_` unchanged. -/
theorem C6_X2_other_pairs_unchanged (q : QEI) (p c : Nat) (henc : q.encoding_ = X2_ENCODING)
    (hprev : q.prevState_ = p) (hp : p < 4) (hc : c < 4)
    (hpair : ¬ ((p = 0b11 ∧ c = 0b00) ∨ (p = 0b00 ∧ c = 0b11) ∨
      (p = 0b10 ∧ c = 0b01) ∨ (p = 0b01 ∧ c = 0b10))) :
    (q.sample c).pulses_ = q.pulses_ := by
  have key : ∀ p < 4, ∀ c < 4, ¬ ((p = 0b11 ∧ c = 0b00) ∨ (p = 0b00 ∧ c = 0b11) ∨
      (p = 0b10 ∧ c = 0b01) ∨ (p = 0b01 ∧ c = 0b10)) → pulseDelta X2_ENCODING p c = 0 := by
    decide
  rw [sample_pulses, henc, hprev, key p hp c hc hpair]
  omega

theorem C6_X2_other_pairs_unchanged_witness :
    ((QEI.init 1 1 1 X2_ENCODING).sample 0b01).pulses_ = (QEI.init 1 1 1 X2_ENCODING).pulses_ :=
  C6_X2_other_pairs_unchanged (QEI.init 1 1 1 X2_ENCODING) 0b11 0b01 rfl rfl
    (by decide) (by decide) (by decide)

/-- C7: in X4 encoding, for every `prevState_ = p` and sampled state `c` in {0,1,2,3}, one
invocation of the transition handler leaves `pulses_` unchanged if and only if `c = p`
(re-trigger) or `c XOR p = 0b11` (the double-bit transition); so every transition to a
Gray-code neighbour (exactly one bit differs) changes `pulses_`. The handler is a total
function returning the next decoder state: there is no error value. -/
theorem C7_X4_unchanged_iff (q : QEI) (p c : Nat) (henc : q.encoding_ = X4_ENCODING)
    (hprev : q.prevState_ = p) (hp : p < 4) (hc : c < 4) :
    ((q.sample c).pulses_ = q.pulses_ ↔ (c = p ∨ c ^^^ p = 0b11)) ∧
      ((c ^^^ p = 0b01 ∨ c ^^^ p = 0b10) → (q.sample c).pulses_ ≠ q.pulses_) := by
  have key : ∀ p < 4, ∀ c < 4,
      (pulseDelta X4_ENCODING p c = 0 ↔ (c = p ∨ c ^^^ p = 0b11)) ∧
        ((c ^^^ p = 0b01 ∨ c ^^^ p = 0b10) → pulseDelta X4_ENCODING p c ≠ 0) := by
    decide
  obtain ⟨h1, h2⟩ := key p hp c hc
  rw [sample_pulses, henc, hprev]
  constructor
  · rw [← h1]
    omega
  · intro h
    have := h2 h
    omega

theorem C7_X4_unchanged_iff_witness :
    (((QEI.init 0 1 1 X4_ENCODING).sample 0b10).pulses_ = (QEI.init 0 1 1 X4_ENCODING).pulses_ ↔
        ((0b10 : Nat) = 0b01 ∨ (0b10 : Nat) ^^^ 0b01 = 0b11)) ∧
      (((0b10 : Nat) ^^^ 0b01 = 0b01 ∨ (0b10 : Nat) ^^^ 0b01 = 0b10) →
        ((QEI.init 0 1 1 X4_ENCODING).sample 0b10).pulses_ ≠
          (QEI.init 0 1 1 X4_ENCODING).pulses_) :=
  C7_X4_unchanged_iff (QEI.init 0 1 1 X4_ENCODING) 0b01 0b10 rfl rfl (by decide) (by decide)

/-- C8: in X4 encoding, for every decoder state with `prevState_ = p` in {0,1,2,3}, after
the handler processes the illegal sample `c = p XOR 0b11` the pulse count is unchanged and
the whole decoder state equals the same decoder with `prevState_ = currState_ = c`; hence
every subsequent sequence of samples yields exactly the states (pulse counts included) of
a decoder that was sitting in state `c` with the pre-jump count. -/
theorem C8_X4_illegal_transition_transparent (q : QEI) (p c : Nat)
    (henc : q.encoding_ = X4_ENCODING) (hprev : q.prevState_ = p) (hp : p < 4)
    (hc : c = p ^^^ 0b11) :
    (q.sample c).pulses_ = q.pulses_ ∧
      q.sample c = { q with prevState_ := c, currState_ := c } ∧
      ∀ ss : List Nat,
        (q.sample c).samples ss = ({ q with prevState_ := c, currState_ := c } : QEI).samples ss := by
  have key : ∀ p < 4, pulseDelta X4_ENCODING p (p ^^^ 0b11) = 0 := by decide
  have hd : pulseDelta X4_ENCODING p c = 0 := hc ▸ key p hp
  have hpulses : (q.sample c).pulses_ = q.pulses_ := by
    rw [sample_pulses, henc, hprev, hd]
    omega
  have hstate : q.sample c = { q with prevState_ := c, currState_ := c } := by
    have h1 := sample_currState q c
    have h2 := sample_prevState q c
    have h3 : (q.sample c).pulsesPerRev_ = q.pulsesPerRev_ := rfl
    have h4 : (q.sample c).revolutions_ = q.revolutions_ := rfl
    have h5 := sample_encoding q c
    generalize q.sample c = r at *
    obtain ⟨e, pv, cv, n, ppr, rv⟩ := r
    simp only at h1 h2 h3 h4 h5 hpulses
    subst h1 h2 h3 h4 h5 hpulses
    rfl
  exact ⟨hpulses, hstate, fun ss => by rw [hstate]⟩

theorem C8_X4_illegal_transition_transparent_witness :
    ((QEI.init 0 0 1 X4_ENCODING).sample 0b11).pulses_ = (QEI.init 0 0 1 X4_ENCODING).pulses_ ∧
      (QEI.init 0 0 1 X4_ENCODING).sample 0b11 =
        { QEI.init 0 0 1 X4_ENCODING with prevState_ := 0b11, currState_ := 0b11 } ∧
      ∀ ss : List Nat,
        ((QEI.init 0 0 1 X4_ENCODING).sample 0b11).samples ss =
          ({ QEI.init 0 0 1 X4_ENCODING with prevState_ := 0b11, currState_ := 0b11 } :
            QEI).samples ss :=
  C8_X4_illegal_transition_transparent (QEI.init 0 0 1 X4_ENCODING) 0b00 0b11 rfl rfl
    (by decide) (by decide)

/-! ## Size of a step, and construction -/

/-- C9: for every decoder state (either encoding, `prevState_` in {0,1,2,3}, any
`pulses_`) and every pair of sampled channel levels in {0,1}, one invocation of the
transition handler changes `pulses_` by exactly -1, 0 or +1; the index handler leaves
`pulses_` as it is. -/
theorem C9_pulse_step_bounded (q : QEI) (chanA chanB : Nat) (hA : chanA < 2) (hB : chanB < 2)
    (hprev : q.prevState_ < 4) :
    ((q.encode chanA chanB).pulses_ = q.pulses_ - 1 ∨
        (q.encode chanA chanB).pulses_ = q.pulses_ ∨
        (q.encode chanA chanB).pulses_ = q.pulses_ + 1) ∧
      q.index.pulses_ = q.pulses_ := by
  refine ⟨?_, rfl⟩
  obtain ⟨enc, p, c, n, ppr, r⟩ := q
  simp only at hprev
  have h32 : (3 &&& 2 : Nat) = 2 := by decide
  cases enc <;> interval_cases chanA <;> interval_cases chanB <;> interval_cases p <;>
    simp [QEI.encode, INVALID, PREV_MASK, CURR_MASK, h32]

theorem C9_pulse_step_bounded_witness :
    (((QEI.init 0 1 1 X4_ENCODING).encode 1 1).pulses_ = (QEI.init 0 1 1 X4_ENCODING).pulses_ - 1 ∨
        ((QEI.init 0 1 1 X4_ENCODING).encode 1 1).pulses_ = (QEI.init 0 1 1 X4_ENCODING).pulses_ ∨
        ((QEI.init 0 1 1 X4_ENCODING).encode 1 1).pulses_ =
          (QEI.init 0 1 1 X4_ENCODING).pulses_ + 1) ∧
      (QEI.init 0 1 1 X4_ENCODING).index.pulses_ = (QEI.init 0 1 1 X4_ENCODING).pulses_ :=
  C9_pulse_step_bounded (QEI.init 0 1 1 X4_ENCODING) 1 1 (by decide) (by decide) (by decide)

/-- C10: for every pair of initial channel levels `a`, `b` in {0,1}, every
pulses-per-revolution value and either encoding, the freshly constructed decoder has
`pulses_ = 0`, `revolutions_ = 0` and `currState_ = prevState_ = (a << 1) | b`, and a
transition-handler invocation that samples the same levels again leaves `pulses_` at 0. -/
theorem C10_construction_no_spurious_pulse (a b : Nat) (pulsesPerRev : Int) (enc : Encoding)
    (ha : a < 2) (hb : b < 2) :
    (QEI.init a b pulsesPerRev enc).pulses_ = 0 ∧
      (QEI.init a b pulsesPerRev enc).revolutions_ = 0 ∧
      (QEI.init a b pulsesPerRev enc).currState_ = (a <<< 1) ||| b ∧
      (QEI.init a b pulsesPerRev enc).prevState_ = (a <<< 1) ||| b ∧
      ((QEI.init a b pulsesPerRev enc).encode a b).pulses_ = 0 := by
  refine ⟨rfl, rfl, rfl, rfl, ?_⟩
  cases enc <;> interval_cases a <;> interval_cases b <;>
    simp [QEI.init, QEI.encode, INVALID]

theorem C10_construction_no_spurious_pulse_witness :
    (QEI.init 1 0 360 X2_ENCODING).pulses_ = 0 ∧
      (QEI.init 1 0 360 X2_ENCODING).revolutions_ = 0 ∧
      (QEI.init 1 0 360 X2_ENCODING).currState_ = (1 <<< 1) ||| 0 ∧
      (QEI.init 1 0 360 X2_ENCODING).prevState_ = (1 <<< 1) ||| 0 ∧
      ((QEI.init 1 0 360 X2_ENCODING).encode 1 0).pulses_ = 0 :=
  C10_construction_no_spurious_pulse 1 0 360 X2_ENCODING (by decide) (by decide)

/-! ## Reset -/

/-- C11: for every decoder state, `reset()` yields a state with `pulses_ = 0` and
`revolutions_ = 0` (so `getPulses` and `getRevolutionCount` return 0) in which
`currState_`, `prevState_`, the encoding and `pulsesPerRev_` keep their values; applying
`reset()` twice gives the same state as applying it once. -/
theorem C11_reset_zeroes_counters_only (q : QEI) :
    q.reset.pulses_ = 0 ∧ q.reset.revolutions_ = 0 ∧
      q.reset.getPulses = 0 ∧ q.reset.getRevolutionCount = 0 ∧
      q.reset.currState_ = q.currState_ ∧ q.reset.prevState_ = q.prevState_ ∧
      q.reset.encoding_ = q.encoding_ ∧ q.reset.pulsesPerRev_ = q.pulsesPerRev_ ∧
      q.reset.reset = q.reset :=
  ⟨rfl, rfl, rfl, rfl, rfl, rfl, rfl, rfl, rfl⟩

/-- C12: decoding continues from the pre-reset `prevState_`: for every decoder state `q`
(either encoding) and all sampled levels, the transition handler run after `reset()`
gives `pulses_` equal to the `pulses_` it gives without the reset minus the `pulses_` of
`q`, and the same `currState_` and `prevState_` as without the reset. -/
theorem C12_reset_keeps_next_delta (q : QEI) (chanA chanB : Nat) :
    (q.reset.encode chanA chanB).pulses_ = (q.encode chanA chanB).pulses_ - q.pulses_ ∧
      (q.reset.encode chanA chanB).currState_ = (q.encode chanA chanB).currState_ ∧
      (q.reset.encode chanA chanB).prevState_ = (q.encode chanA chanB).prevState_ := by
  refine ⟨?_, rfl, rfl⟩
  obtain ⟨enc, p, c, n, ppr, r⟩ := q
  cases enc <;> simp only [QEI.reset, QEI.encode] <;> split_ifs <;> omega

/-! ## The index handler -/

theorem run_nil (q : QEI) : q.run [] = q := rfl

theorem run_cons (q : QEI) (e : Event) (es : List Event) :
    q.run (e :: es) = (q.step e).run es := rfl

theorem sameDecoding_encode (q r : QEI) (h : sameDecoding q r) (chanA chanB : Nat) :
    sameDecoding (q.encode chanA chanB) (r.encode chanA chanB) := by
  obtain ⟨e1, p1, c1, n1, ppr1, r1⟩ := q
  obtain ⟨e2, p2, c2, n2, ppr2, r2⟩ := r
  obtain ⟨h1, h2, h3, h4, h5⟩ := h
  simp only at h1 h2 h3 h4 h5
  subst h1 h2 h3 h4 h5
  exact ⟨rfl, rfl, rfl, rfl, rfl⟩

theorem sameDecoding_index (q r : QEI) (h : sameDecoding q r) : sameDecoding q.index r :=
  h

/-- Without `reset`, the revolution counter grows by the number of index-handler calls. -/
theorem run_revolutions (es : List Event) (q : QEI) (hes : ∀ e ∈ es, e ≠ Event.reset) :
    (q.run es).revolutions_ = q.revolutions_ + (es.countP Event.isIndex : Nat) := by
  induction es generalizing q with
  | nil => simp [run_nil]
  | cons e es ih =>
    have htail : ∀ x ∈ es, x ≠ Event.reset := fun x hx => hes x (List.mem_cons_of_mem _ hx)
    rw [run_cons, ih _ htail]
    cases e with
    | encode chanA chanB =>
      simp [QEI.step, QEI.encode, Event.isIndex]
    | index =>
      simp only [QEI.step, QEI.index, Event.isIndex, List.countP_cons_of_pos]
      push_cast
      ring
    | reset => exact absurd rfl (hes _ (List.mem_cons_self _ _))

/-- Without `reset`, dropping the index-handler calls from a run changes nothing but
`revolutions_`. -/
theorem run_sameDecoding (es : List Event) (q r : QEI) (h : sameDecoding q r)
    (hes : ∀ e ∈ es, e ≠ Event.reset) :
    sameDecoding (q.run es) (r.run (es.filter Event.isEncode)) := by
  induction es generalizing q r with
  | nil => exact h
  | cons e es ih =>
    have htail : ∀ x ∈ es, x ≠ Event.reset := fun x hx => hes x (List.mem_cons_of_mem _ hx)
    cases e with
    | encode chanA chanB =>
      simp only [Event.isEncode, List.filter_cons_of_pos, run_cons, QEI.step]
      exact ih _ _ (sameDecoding_encode q r h chanA chanB) htail
    | index =>
      have hne : ¬ Event.isEncode Event.index = true := by decide
      rw [List.filter_cons_of_neg hne, run_cons]
      exact ih _ _ (sameDecoding_index q r h) htail
    | reset => exact absurd rfl (hes _ (List.mem_cons_self _ _))

/-! ## Direction of a counted transition -/

/-- C14, as stated, fails: an X2 decoder constructed in state 10 (`pulses_ = 0`) that
samples 01 ends with `pulses_ = -1`, so the count does not increase on 10 -> 01; and an
X2 decoder constructed in state 11 that samples 00 ends with `pulses_ = +1`, so the
count does not decrease on 11 -> 00. -/
theorem C14_X2_direction_counterexample :
    ((QEI.init 1 0 1 X2_ENCODING).prevState_ = 0b10 ∧
      ((QEI.init 1 0 1 X2_ENCODING).encode 0 1).currState_ = 0b01 ∧
      ((QEI.init 1 0 1 X2_ENCODING).encode 0 1).pulses_ = -1 ∧
      ¬ ((QEI.init 1 0 1 X2_ENCODING).pulses_ <
        ((QEI.init 1 0 1 X2_ENCODING).encode 0 1).pulses_)) ∧
    ((QEI.init 1 1 1 X2_ENCODING).prevState_ = 0b11 ∧
      ((QEI.init 1 1 1 X2_ENCODING).encode 0 0).currState_ = 0b00 ∧
      ((QEI.init 1 1 1 X2_ENCODING).encode 0 0).pulses_ = 1 ∧
      ¬ (((QEI.init 1 1 1 X2_ENCODING).encode 0 0).pulses_ <
        (QEI.init 1 1 1 X2_ENCODING).pulses_)) := by
  decide

/-- C14, amended: in X2 encoding the pattern 11 -> 00 -> 11 -> 00 is the one counted
"forward" (inline comment, line 128), so `pulses_` increases by one on each 11 <-> 00
transition, and the pattern 10 -> 01 -> 10 -> 01 is the one counted "backward" (inline
comment, line 135), so `pulses_` decreases by one on each 10 <-> 01 transition. -/
theorem C14_X2_direction (q : QEI) (henc : q.encoding_ = X2_ENCODING) :
    (q.prevState_ = 0b11 → (q.sample 0b00).pulses_ = q.pulses_ + 1) ∧
      (q.prevState_ = 0b00 → (q.sample 0b11).pulses_ = q.pulses_ + 1) ∧
      (q.prevState_ = 0b10 → (q.sample 0b01).pulses_ = q.pulses_ - 1) ∧
      (q.prevState_ = 0b01 → (q.sample 0b10).pulses_ = q.pulses_ - 1) := by
  have h30 : pulseDelta X2_ENCODING 3 0 = 1 := by decide
  have h03 : pulseDelta X2_ENCODING 0 3 = 1 := by decide
  have h21 : pulseDelta X2_ENCODING 2 1 = -1 := by decide
  have h12 : pulseDelta X2_ENCODING 1 2 = -1 := by decide
  refine ⟨fun h => ?_, fun h => ?_, fun h => ?_, fun h => ?_⟩
  · rw [sample_pulses, henc, h, h30]
  · rw [sample_pulses, henc, h, h03]
  · rw [sample_pulses, henc, h, h21]
    omega
  · rw [sample_pulses, henc, h, h12]
    omega

theorem C14_X2_direction_witness :
    ((QEI.init 1 1 1 X2_ENCODING).sample 0b00).pulses_ =
        (QEI.init 1 1 1 X2_ENCODING).pulses_ + 1 ∧
      ((QEI.init 1 0 1 X2_ENCODING).sample 0b01).pulses_ =
        (QEI.init 1 0 1 X2_ENCODING).pulses_ - 1 :=
  ⟨(C14_X2_direction (QEI.init 1 1 1 X2_ENCODING) rfl).1 rfl,
    (C14_X2_direction (QEI.init 1 0 1 X2_ENCODING) rfl).2.2.1 rfl⟩

/-- C15: in X4 encoding, for every `prevState_ = p` and sampled state `c` in {0,1,2,3}
that differ in exactly one bit, with `x` = (bit 0 of `p`) XOR (bit 1 of `c`): `x` is 0 or
1, the handler's `change` is -1 when `x = 0` and 1 when `x = 1`, and the new `pulses_` is
the old one minus `change`, that is the old one plus 1 when `x = 0` and the old one
minus 1 when `x = 1`. -/
theorem C15_X4_direction_value (q : QEI) (p c : Nat) (henc : q.encoding_ = X4_ENCODING)
    (hprev : q.prevState_ = p) (hp : p < 4) (hc : c < 4)
    (hbit : c ^^^ p = 0b01 ∨ c ^^^ p = 0b10) :
    (specDirectionBit p c = 0 ∨ specDirectionBit p c = 1) ∧
      (specDirectionBit p c = 0 → directionValue p c = -1) ∧
      (specDirectionBit p c = 1 → directionValue p c = 1) ∧
      (q.sample c).pulses_ = q.pulses_ - directionValue p c ∧
      (specDirectionBit p c = 0 → (q.sample c).pulses_ = q.pulses_ + 1) ∧
      (specDirectionBit p c = 1 → (q.sample c).pulses_ = q.pulses_ - 1) := by
  have key01 : ∀ p < 4, ∀ c < 4, specDirectionBit p c = 0 ∨ specDirectionBit p c = 1 := by
    decide
  have key0 : ∀ p < 4, ∀ c < 4, specDirectionBit p c = 0 → directionValue p c = -1 := by
    decide
  have key1 : ∀ p < 4, ∀ c < 4, specDirectionBit p c = 1 → directionValue p c = 1 := by
    decide
  have keyd : ∀ p < 4, ∀ c < 4, (c ^^^ p = 0b01 ∨ c ^^^ p = 0b10) →
      pulseDelta X4_ENCODING p c = -directionValue p c := by
    decide
  have h01 := key01 p hp c hc
  have h0 := key0 p hp c hc
  have h1 := key1 p hp c hc
  have hd := keyd p hp c hc hbit
  have hpulses : (q.sample c).pulses_ = q.pulses_ - directionValue p c := by
    rw [sample_pulses, henc, hprev, hd]
    omega
  refine ⟨h01, h0, h1, hpulses, fun hx => ?_, fun hx => ?_⟩
  · rw [hpulses, h0 hx]
    omega
  · rw [hpulses, h1 hx]

theorem C15_X4_direction_value_witness :
    (specDirectionBit 0b00 0b01 = 0 ∨ specDirectionBit 0b00 0b01 = 1) ∧
      (specDirectionBit 0b00 0b01 = 0 → directionValue 0b00 0b01 = -1) ∧
      (specDirectionBit 0b00 0b01 = 1 → directionValue 0b00 0b01 = 1) ∧
      ((QEI.init 0 0 1 X4_ENCODING).sample 0b01).pulses_ =
        (QEI.init 0 0 1 X4_ENCODING).pulses_ - directionValue 0b00 0b01 ∧
      (specDirectionBit 0b00 0b01 = 0 →
        ((QEI.init 0 0 1 X4_ENCODING).sample 0b01).pulses_ =
          (QEI.init 0 0 1 X4_ENCODING).pulses_ + 1) ∧
      (specDirectionBit 0b00 0b01 = 1 →
        ((QEI.init 0 0 1 X4_ENCODING).sample 0b01).pulses_ =
          (QEI.init 0 0 1 X4_ENCODING).pulses_ - 1) :=
  C15_X4_direction_value (QEI.init 0 0 1 X4_ENCODING) 0b00 0b01 rfl rfl
    (by decide) (by decide) (by decide)

/-- C17: in X4 encoding the per-transition pulse delta is antisymmetric: for all states
`p`, `c` in {0,1,2,3} that differ in exactly one bit, the pulse change of the transition
`p -> c` is the negation of the pulse change of `c -> p`; hence stepping from `p` to the
neighbour `c` and straight back (two handler invocations) restores the original
`pulses_`. -/
theorem C17_X4_delta_antisymmetric (q r : QEI) (p c : Nat)
    (hq : q.encoding_ = X4_ENCODING) (hr : r.encoding_ = X4_ENCODING)
    (hqprev : q.prevState_ = p) (hrprev : r.prevState_ = c) (hp : p < 4) (hc : c < 4)
    (hbit : c ^^^ p = 0b01 ∨ c ^^^ p = 0b10) :
    (q.sample c).pulses_ - q.pulses_ = -((r.sample p).pulses_ - r.pulses_) ∧
      ((q.sample c).sample p).pulses_ = q.pulses_ := by
  have key : ∀ p < 4, ∀ c < 4, (c ^^^ p = 0b01 ∨ c ^^^ p = 0b10) →
      pulseDelta X4_ENCODING p c = -pulseDelta X4_ENCODING c p := by
    decide
  have hd := key p hp c hc hbit
  constructor
  · rw [sample_pulses, sample_pulses, hq, hr, hqprev, hrprev, hd]
    omega
  · rw [sample_pulses, sample_pulses, sample_encoding, sample_prevState, hq, hqprev, hd]
    omega

theorem C17_X4_delta_antisymmetric_witness :
    ((QEI.init 0 1 1 X4_ENCODING).sample 0b11).pulses_ - (QEI.init 0 1 1 X4_ENCODING).pulses_ =
        -(((QEI.init 1 1 1 X4_ENCODING).sample 0b01).pulses_ -
          (QEI.init 1 1 1 X4_ENCODING).pulses_) ∧
      (((QEI.init 0 1 1 X4_ENCODING).sample 0b11).sample 0b01).pulses_ =
        (QEI.init 0 1 1 X4_ENCODING).pulses_ :=
  C17_X4_delta_antisymmetric (QEI.init 0 1 1 X4_ENCODING) (QEI.init 1 1 1 X4_ENCODING)
    0b01 0b11 rfl rfl rfl rfl (by decide) (by decide) (by decide)

/-! ## The 2-bit state -/

theorem levels_lt (chanA chanB : Nat) (hA : chanA < 2) (hB : chanB < 2) :
    (chanA <<< 1) ||| chanB < 4 := by
  interval_cases chanA <;> interval_cases chanB <;> decide

/-- Calls that read pin levels keep both states within two bits. -/
theorem run_states_lt (es : List Event) (q : QEI) (hcurr : q.currState_ < 4)
    (hprev : q.prevState_ < 4) (hes : ∀ e ∈ es, e.levelsOk) :
    (q.run es).currState_ < 4 ∧ (q.run es).prevState_ < 4 := by
  induction es generalizing q with
  | nil => exact ⟨hcurr, hprev⟩
  | cons e es ih =>
    have htail : ∀ x ∈ es, x.levelsOk := fun x hx => hes x (List.mem_cons_of_mem _ hx)
    have hhead : e.levelsOk := hes e (List.mem_cons_self _ _)
    rw [run_cons]
    cases e with
    | encode chanA chanB =>
      exact ih _ (levels_lt chanA chanB hhead.1 hhead.2) (levels_lt chanA chanB hhead.1 hhead.2)
        htail
    | index => exact ih _ hcurr hprev htail
    | reset => exact ih _ hcurr hprev htail

/-- C16: for every decoder state, either encoding and all sampled levels `a`, `b` in {0,1},
after one invocation of the transition handler `currState_ = prevState_ = (a << 1) | b`
whatever branch was taken, and the encoding and `pulsesPerRev_` are unchanged; so
`currState_` and `prevState_` are in {0,1,2,3} in every state reached from construction
(initial levels in {0,1}) by any sequence of transition-handler, index-handler and
`reset()` calls. -/
theorem C16_states_follow_levels (q : QEI) (a b : Nat) (ha : a < 2) (hb : b < 2)
    (a0 b0 : Nat) (pulsesPerRev : Int) (enc : Encoding) (ha0 : a0 < 2) (hb0 : b0 < 2)
    (es : List Event) (hes : ∀ e ∈ es, e.levelsOk) :
    (q.encode a b).currState_ = (a <<< 1) ||| b ∧
      (q.encode a b).prevState_ = (a <<< 1) ||| b ∧
      (q.encode a b).currState_ < 4 ∧
      (q.encode a b).encoding_ = q.encoding_ ∧
      (q.encode a b).pulsesPerRev_ = q.pulsesPerRev_ ∧
      ((QEI.init a0 b0 pulsesPerRev enc).run es).currState_ < 4 ∧
      ((QEI.init a0 b0 pulsesPerRev enc).run es).prevState_ < 4 :=
  ⟨rfl, rfl, levels_lt a b ha hb, rfl, rfl,
    run_states_lt es (QEI.init a0 b0 pulsesPerRev enc) (levels_lt a0 b0 ha0 hb0)
      (levels_lt a0 b0 ha0 hb0) hes⟩

theorem C16_states_follow_levels_witness :
    ((QEI.init 0 0 1 X2_ENCODING).encode 1 0).currState_ = (1 <<< 1) ||| 0 ∧
      ((QEI.init 0 0 1 X2_ENCODING).encode 1 0).prevState_ = (1 <<< 1) ||| 0 ∧
      ((QEI.init 0 0 1 X2_ENCODING).encode 1 0).currState_ < 4 ∧
      ((QEI.init 0 0 1 X2_ENCODING).encode 1 0).encoding_ =
        (QEI.init 0 0 1 X2_ENCODING).encoding_ ∧
      ((QEI.init 0 0 1 X2_ENCODING).encode 1 0).pulsesPerRev_ =
        (QEI.init 0 0 1 X2_ENCODING).pulsesPerRev_ ∧
      ((QEI.init 1 1 360 X4_ENCODING).run
        [Event.encode 1 0, Event.index, Event.reset, Event.encode 0 0]).currState_ < 4 ∧
      ((QEI.init 1 1 360 X4_ENCODING).run
        [Event.encode 1 0, Event.index, Event.reset, Event.encode 0 0]).prevState_ < 4 :=
  C16_states_follow_levels (QEI.init 0 0 1 X2_ENCODING) 1 0 (by decide) (by decide)
    1 1 360 X4_ENCODING (by decide) (by decide)
    [Event.encode 1 0, Event.index, Event.reset, Event.encode 0 0] (by decide)

/-! ## Pulse count and position on the Gray cycle -/

theorem samples_prevState_lt (ss : List Nat) (q : QEI) (hprev : q.prevState_ < 4)
    (hss : ∀ s ∈ ss, s < 4) : (q.samples ss).prevState_ < 4 := by
  induction ss generalizing q with
  | nil => exact hprev
  | cons c cs ih =>
    rw [samples_cons]
    exact ih _ (by rw [sample_prevState]; exact hss c (List.mem_cons_self _ _))
      (fun x hx => hss x (List.mem_cons_of_mem _ hx))

/-- In X4 encoding the pulse count minus the position moves by 2 modulo 4 at every
double-bit transition and not at all otherwise. -/
theorem samples_X4_position (ss : List Nat) (q : QEI) (henc : q.encoding_ = X4_ENCODING)
    (hprev : q.prevState_ < 4) (hss : ∀ s ∈ ss, s < 4) :
    ((q.samples ss).pulses_ - q.pulses_ -
      (pos (q.samples ss).prevState_ - pos q.prevState_ +
        2 * (illegalCount q.prevState_ ss : Nat))) % 4 = 0 := by
  induction ss generalizing q with
  | nil => simp [samples_nil, illegalCount]
  | cons c cs ih =>
    have key : ∀ p < 4, ∀ c < 4,
        (pulseDelta X4_ENCODING p c -
          (pos c - pos p + 2 * ((if c ^^^ p = INVALID then 1 else 0 : Nat) : Int))) % 4 = 0 := by
      decide
    have hc : c < 4 := hss c (List.mem_cons_self _ _)
    have hstep := key q.prevState_ hprev c hc
    have hrest := ih (q.sample c) (by rw [sample_encoding, henc])
      (by rw [sample_prevState]; exact hc) (fun x hx => hss x (List.mem_cons_of_mem _ hx))
    rw [sample_prevState, sample_pulses, henc] at hrest
    rw [samples_cons, illegalCount]
    push_cast
    generalize ((q.sample c).samples cs).pulses_ = pf at hrest ⊢
    generalize pos ((q.sample c).samples cs).prevState_ = sf at hrest ⊢
    generalize pulseDelta X4_ENCODING q.prevState_ c = d at hstep hrest
    generalize (illegalCount c cs : Int) = k at hrest ⊢
    generalize pos c = pc at hstep hrest
    generalize pos q.prevState_ = pp at hstep ⊢
    split_ifs at hstep ⊢ <;> push_cast at hstep ⊢ <;> omega

/-- C18: in X4 encoding the pulse count tracks the position on the Gray cycle modulo 4:
with pos(00)=0, pos(01)=1, pos(11)=2, pos(10)=3, for every start state (`pulses_ = p0`,
`prevState_ = s0` in {0,1,2,3}) and every finite sequence of sampled states in
{0,1,2,3}, the final `pulses_ = p` and final state `s` satisfy
p - p0 = pos(s) - pos(s0) + 2k (mod 4), where `k` is the number of double-bit
transitions in the sequence; so the offset between count and position is 2k modulo 4
whatever legal transitions follow, and with no double-bit transition a walk that returns
to its start state changes `pulses_` by a multiple of 4. -/
theorem C18_X4_count_tracks_position (q : QEI) (ss : List Nat)
    (henc : q.encoding_ = X4_ENCODING) (hprev : q.prevState_ < 4) (hss : ∀ s ∈ ss, s < 4) :
    ((q.samples ss).pulses_ - q.pulses_) % 4 =
        (pos (q.samples ss).prevState_ - pos q.prevState_ +
          2 * (illegalCount q.prevState_ ss : Nat)) % 4 ∧
      (((q.samples ss).pulses_ - q.pulses_) -
          (pos (q.samples ss).prevState_ - pos q.prevState_)) % 4 =
        (2 * (illegalCount q.prevState_ ss : Nat) : Int) % 4 ∧
      (illegalCount q.prevState_ ss = 0 → (q.samples ss).prevState_ = q.prevState_ →
        (4 : Int) ∣ (q.samples ss).pulses_ - q.pulses_) := by
  have h := samples_X4_position ss q henc hprev hss
  refine ⟨by omega, by omega, fun hk hs => ?_⟩
  rw [hk, hs] at h
  simp only [Nat.cast_zero] at h
  omega

theorem C18_X4_count_tracks_position_witness :
    (((QEI.init 0 0 1 X4_ENCODING).samples [0b11, 0b01, 0b00]).pulses_ -
        (QEI.init 0 0 1 X4_ENCODING).pulses_) % 4 =
      (pos ((QEI.init 0 0 1 X4_ENCODING).samples [0b11, 0b01, 0b00]).prevState_ -
        pos (QEI.init 0 0 1 X4_ENCODING).prevState_ +
        2 * (illegalCount (QEI.init 0 0 1 X4_ENCODING).prevState_ [0b11, 0b01, 0b00] : Nat)) % 4 :=
  (C18_X4_count_tracks_position (QEI.init 0 0 1 X4_ENCODING) [0b11, 0b01, 0b00] rfl
    (by decide) (by decide)).1

/-! ## The two encodings side by side -/

/-- C20: the two encodings count disjoint sets of transitions: for every previous state
`p` and sampled state `c` in {0,1,2,3}, the X2 handler changes `pulses_` exactly when
`c XOR p = 0b11`, and the X4 handler changes `pulses_` exactly when `c` and `p` differ
in exactly one bit; so no pair changes the count in both encodings, and every pair that
X2 counts is one that X4 treats as INVALID (and leaves uncounted). -/
theorem C20_encodings_count_disjoint (q2 q4 : QEI) (p c : Nat)
    (h2 : q2.encoding_ = X2_ENCODING) (h4 : q4.encoding_ = X4_ENCODING)
    (hprev2 : q2.prevState_ = p) (hprev4 : q4.prevState_ = p) (hp : p < 4) (hc : c < 4) :
    ((q2.sample c).pulses_ ≠ q2.pulses_ ↔ c ^^^ p = 0b11) ∧
      ((q4.sample c).pulses_ ≠ q4.pulses_ ↔ (c ^^^ p = 0b01 ∨ c ^^^ p = 0b10)) ∧
      ¬ ((q2.sample c).pulses_ ≠ q2.pulses_ ∧ (q4.sample c).pulses_ ≠ q4.pulses_) ∧
      ((q2.sample c).pulses_ ≠ q2.pulses_ →
        c ^^^ p = INVALID ∧ (q4.sample c).pulses_ = q4.pulses_) := by
  have key2 : ∀ p < 4, ∀ c < 4, (pulseDelta X2_ENCODING p c ≠ 0 ↔ c ^^^ p = 0b11) := by
    decide
  have key4 : ∀ p < 4, ∀ c < 4,
      (pulseDelta X4_ENCODING p c ≠ 0 ↔ (c ^^^ p = 0b01 ∨ c ^^^ p = 0b10)) := by
    decide
  have k2 := key2 p hp c hc
  have k4 := key4 p hp c hc
  have e2 : (q2.sample c).pulses_ ≠ q2.pulses_ ↔ pulseDelta X2_ENCODING p c ≠ 0 := by
    rw [sample_pulses, h2, hprev2]
    constructor <;> intro h <;> omega
  have e4 : (q4.sample c).pulses_ ≠ q4.pulses_ ↔ pulseDelta X4_ENCODING p c ≠ 0 := by
    rw [sample_pulses, h4, hprev4]
    constructor <;> intro h <;> omega
  have hdisj : c ^^^ p = 0b11 → ¬ (c ^^^ p = 0b01 ∨ c ^^^ p = 0b10) := by
    intro h
    rw [h]
    decide
  refine ⟨e2.trans k2, e4.trans k4, ?_, ?_⟩
  · rintro ⟨a2, a4⟩
    exact hdisj ((e2.trans k2).1 a2) ((e4.trans k4).1 a4)
  · intro a2
    have hx := (e2.trans k2).1 a2
    refine ⟨hx, ?_⟩
    by_contra a4
    exact hdisj hx ((e4.trans k4).1 a4)

theorem C20_encodings_count_disjoint_witness :
    (((QEI.init 0 0 1 X2_ENCODING).sample 0b11).pulses_ ≠ (QEI.init 0 0 1 X2_ENCODING).pulses_ ↔
        (0b11 : Nat) ^^^ 0b00 = 0b11) ∧
      (((QEI.init 0 0 1 X4_ENCODING).sample 0b11).pulses_ ≠
          (QEI.init 0 0 1 X4_ENCODING).pulses_ ↔
        ((0b11 : Nat) ^^^ 0b00 = 0b01 ∨ (0b11 : Nat) ^^^ 0b00 = 0b10)) :=
  have h := C20_encodings_count_disjoint (QEI.init 0 0 1 X2_ENCODING)
    (QEI.init 0 0 1 X4_ENCODING) 0b00 0b11 rfl rfl rfl rfl (by decide) (by decide)
  ⟨h.1, h.2.1⟩

/-! ## Walks of the lines under the attached interrupts -/

theorem walk_nil (q : QEI) (l : Nat) : q.walk l [] = (q, l) := rfl

theorem walk_cons (q : QEI) (l s : Nat) (ss : List Nat) :
    q.walk l (s :: ss) = (q.edge l s).walk s ss := rfl

theorem walk_append (q : QEI) (l : Nat) (ss ts : List Nat) :
    q.walk l (ss ++ ts) = (q.walk l ss).1.walk (q.walk l ss).2 ts := by
  simp [QEI.walk, List.foldl_append]

/-- In X2 encoding a change of channel B alone raises no interrupt. -/
theorem edge_X2_same (q : QEI) (henc : q.encoding_ = X2_ENCODING) (old new : Nat)
    (hA : old >>> 1 = new >>> 1) : q.edge old new = q := by
  simp [QEI.edge, henc, hA]

/-- In X2 encoding a change of channel A runs the transition handler once. -/
theorem edge_X2_changed (q : QEI) (henc : q.encoding_ = X2_ENCODING) (old new : Nat)
    (hA : old >>> 1 ≠ new >>> 1) : q.edge old new = q.sample new := by
  simp [QEI.edge, henc, hA]

/-- A change of channel A alone runs the transition handler once, in either encoding. -/
theorem edge_A_only (q : QEI) (old new : Nat)
    (hA : old >>> 1 ≠ new >>> 1) (hB : old &&& 1 = new &&& 1) :
    q.edge old new = q.sample new := by
  unfold QEI.edge
  rw [if_pos hA, if_neg (fun h => h.2 hB)]

/-- In X4 encoding a change of channel B alone runs the transition handler once. -/
theorem edge_X4_B (q : QEI) (henc : q.encoding_ = X4_ENCODING) (old new : Nat)
    (hA : old >>> 1 = new >>> 1) (hB : old &&& 1 ≠ new &&& 1) :
    q.edge old new = q.sample new := by
  have hA2 : ¬ (old >>> 1 ≠ new >>> 1) := fun h => h hA
  have hB2 : q.encoding_ = X4_ENCODING ∧ old &&& 1 ≠ new &&& 1 := ⟨henc, hB⟩
  unfold QEI.edge
  simp only [if_neg hA2, if_pos hB2]

theorem forwardCycle_X2_walk (q : QEI) (henc : q.encoding_ = X2_ENCODING) :
    q.walk 0 forwardCycle = ((q.sample 0b11).sample 0b00, 0) := by
  rw [forwardCycle, walk_cons, edge_X2_same q henc 0 1 (by decide), walk_cons,
    edge_X2_changed q henc 1 3 (by decide), walk_cons,
    edge_X2_same _ (by rw [sample_encoding, henc]) 3 2 (by decide), walk_cons,
    edge_X2_changed _ (by rw [sample_encoding, henc]) 2 0 (by decide), walk_nil]

theorem reverseCycle_X2_walk (q : QEI) (henc : q.encoding_ = X2_ENCODING) :
    q.walk 0 reverseCycle = ((q.sample 0b10).sample 0b01, 0) := by
  rw [reverseCycle, walk_cons, edge_X2_changed q henc 0 2 (by decide), walk_cons,
    edge_X2_same _ (by rw [sample_encoding, henc]) 2 3 (by decide), walk_cons,
    edge_X2_changed _ (by rw [sample_encoding, henc]) 3 1 (by decide), walk_cons,
    edge_X2_same _ (by rw [sample_encoding, sample_encoding, henc]) 1 0 (by decide), walk_nil]

theorem forwardCycle_X4_walk (q : QEI) (henc : q.encoding_ = X4_ENCODING) :
    q.walk 0 forwardCycle = (q.samples forwardCycle, 0) := by
  have h1 : (q.sample 1).encoding_ = X4_ENCODING := by rw [sample_encoding, henc]
  have h2 : ((q.sample 1).sample 3).encoding_ = X4_ENCODING := by rw [sample_encoding, h1]
  have h3 : (((q.sample 1).sample 3).sample 2).encoding_ = X4_ENCODING := by
    rw [sample_encoding, h2]
  rw [forwardCycle, walk_cons, edge_X4_B q henc 0 1 (by decide) (by decide), walk_cons,
    edge_A_only _ 1 3 (by decide) (by decide), walk_cons,
    edge_X4_B _ h2 3 2 (by decide) (by decide), walk_cons,
    edge_A_only _ 2 0 (by decide) (by decide), walk_nil]
  rfl

theorem reverseCycle_X4_walk (q : QEI) (henc : q.encoding_ = X4_ENCODING) :
    q.walk 0 reverseCycle = (q.samples reverseCycle, 0) := by
  have h1 : (q.sample 2).encoding_ = X4_ENCODING := by rw [sample_encoding, henc]
  have h2 : ((q.sample 2).sample 3).encoding_ = X4_ENCODING := by rw [sample_encoding, h1]
  have h3 : (((q.sample 2).sample 3).sample 1).encoding_ = X4_ENCODING := by
    rw [sample_encoding, h2]
  rw [reverseCycle, walk_cons, edge_A_only q 0 2 (by decide) (by decide), walk_cons,
    edge_X4_B _ h1 2 3 (by decide) (by decide), walk_cons,
    edge_A_only _ 3 1 (by decide) (by decide), walk_cons,
    edge_X4_B _ h3 1 0 (by decide) (by decide), walk_nil]
  rfl

/-- In X2 encoding, with the decoder last triggered in state 00, every forward cycle of
the lines counts two pulses up. -/
theorem forwardCycles_X2_walk (N : Nat) (q : QEI) (henc : q.encoding_ = X2_ENCODING)
    (hprev : q.prevState_ = 0) :
    (q.walk 0 (cycles forwardCycle N)).1.pulses_ = q.pulses_ + 2 * (N : Int) := by
  induction N generalizing q with
  | zero => simp [cycles, walk_nil]
  | succ n ih =>
    have h1 : pulseDelta X2_ENCODING 0 3 = 1 := by decide
    have h2 : pulseDelta X2_ENCODING 3 0 = 1 := by decide
    rw [cycles, walk_append, forwardCycle_X2_walk q henc,
      ih _ (by rw [sample_encoding, sample_encoding, henc]) (sample_prevState _ _),
      sample_pulses, sample_pulses, sample_encoding, sample_prevState, henc, hprev, h1, h2]
    push_cast
    ring

/-- In X2 encoding, with the decoder last triggered in state 01, every reverse cycle of
the lines counts two pulses down. -/
theorem reverseCycles_X2_walk (N : Nat) (q : QEI) (henc : q.encoding_ = X2_ENCODING)
    (hprev : q.prevState_ = 1) :
    (q.walk 0 (cycles reverseCycle N)).1.pulses_ = q.pulses_ - 2 * (N : Int) := by
  induction N generalizing q with
  | zero => simp [cycles, walk_nil]
  | succ n ih =>
    have h1 : pulseDelta X2_ENCODING 1 2 = -1 := by decide
    have h2 : pulseDelta X2_ENCODING 2 1 = -1 := by decide
    rw [cycles, walk_append, reverseCycle_X2_walk q henc,
      ih _ (by rw [sample_encoding, sample_encoding, henc]) (sample_prevState _ _),
      sample_pulses, sample_pulses, sample_encoding, sample_prevState, henc, hprev, h1, h2]
    push_cast
    ring

theorem forwardCycles_X4_walk (N : Nat) (q : QEI) (henc : q.encoding_ = X4_ENCODING) :
    q.walk 0 (cycles forwardCycle N) = (q.samples (cycles forwardCycle N), 0) := by
  induction N generalizing q with
  | zero => rfl
  | succ n ih =>
    rw [cycles, walk_append, forwardCycle_X4_walk q henc,
      ih _ (by rw [samples_encoding, henc]), samples_append]

theorem reverseCycles_X4_walk (N : Nat) (q : QEI) (henc : q.encoding_ = X4_ENCODING) :
    q.walk 0 (cycles reverseCycle N) = (q.samples (cycles reverseCycle N), 0) := by
  induction N generalizing q with
  | zero => rfl
  | succ n ih =>
    rw [cycles, walk_append, reverseCycle_X4_walk q henc,
      ih _ (by rw [samples_encoding, henc]), samples_append]

/-- With unbounded counters: from construction at 00, N forward cycles of the lines
count `+2N` in X2 and `+4N` in X4, N >= 1 reverse cycles count `-(2N - 1)` in X2 and
`-4N` in X4, and the first 00 -> 10 edge is not counted in X2. -/
theorem walk_init_cycles (N : Nat) (pulsesPerRev : Int) :
    ((QEI.init 0 0 pulsesPerRev X2_ENCODING).walk 0 (cycles forwardCycle N)).1.pulses_ =
        2 * (N : Int) ∧
      (1 ≤ N →
        ((QEI.init 0 0 pulsesPerRev X2_ENCODING).walk 0 (cycles reverseCycle N)).1.pulses_ =
          -(2 * (N : Int) - 1)) ∧
      ((QEI.init 0 0 pulsesPerRev X2_ENCODING).walk 0 [0b10]).1.pulses_ = 0 ∧
      ((QEI.init 0 0 pulsesPerRev X4_ENCODING).walk 0 (cycles forwardCycle N)).1.pulses_ =
        4 * (N : Int) ∧
      ((QEI.init 0 0 pulsesPerRev X4_ENCODING).walk 0 (cycles reverseCycle N)).1.pulses_ =
        -(4 * (N : Int)) := by
  refine ⟨?_, ?_, ?_, ?_, ?_⟩
  · rw [forwardCycles_X2_walk N _ rfl rfl]
    simp [QEI.init]
  · intro hN
    obtain ⟨n, rfl⟩ : ∃ n, N = n + 1 := ⟨N - 1, by omega⟩
    have h1 : pulseDelta X2_ENCODING 0 2 = 0 := by decide
    have h2 : pulseDelta X2_ENCODING 2 1 = -1 := by decide
    have h0 : (QEI.init 0 0 pulsesPerRev X2_ENCODING).pulses_ = 0 := rfl
    have hp : (QEI.init 0 0 pulsesPerRev X2_ENCODING).prevState_ = 0 := rfl
    have he : (QEI.init 0 0 pulsesPerRev X2_ENCODING).encoding_ = X2_ENCODING := rfl
    rw [cycles, walk_append, reverseCycle_X2_walk _ he,
      reverseCycles_X2_walk n _ (by rw [sample_encoding, sample_encoding, he])
        (sample_prevState _ _),
      sample_pulses, sample_pulses, sample_encoding, sample_prevState, he, hp, h0, h1, h2]
    push_cast
    ring
  · rw [walk_cons, edge_X2_changed _ rfl 0 2 (by decide), walk_nil]
    have h1 : pulseDelta X2_ENCODING 0 2 = 0 := by decide
    show ((QEI.init 0 0 pulsesPerRev X2_ENCODING).sample 2).pulses_ = 0
    rw [sample_pulses]
    exact h1
  · rw [forwardCycles_X4_walk N _ rfl]
    show ((QEI.init 0 0 pulsesPerRev X4_ENCODING).samples (cycles forwardCycle N)).pulses_ = _
    rw [forwardCycles_X4 N _ rfl rfl]
    simp [QEI.init]
  · rw [reverseCycles_X4_walk N _ rfl]
    show ((QEI.init 0 0 pulsesPerRev X4_ENCODING).samples (cycles reverseCycle N)).pulses_ = _
    rw [reverseCycles_X4 N _ rfl rfl]
    simp [QEI.init]

/-! ## Counters of 32 bits -/

theorem wrapInt32_add (x d : Int) : wrapInt32 (wrapInt32 x + d) = wrapInt32 (x + d) := by
  unfold wrapInt32
  omega

theorem wrapInt32_of_range (x : Int) (hlo : -2147483648 ≤ x) (hhi : x ≤ 2147483647) :
    wrapInt32 x = x := by
  unfold wrapInt32
  omega

theorem init_wrap32 (a b : Nat) (pulsesPerRev : Int) (enc : Encoding) :
    (QEI.init a b pulsesPerRev enc).wrap32 = QEI.init a b pulsesPerRev enc := rfl

/-- The 32-bit transition handler computes the unbounded one, reduced to 32 bits. -/
theorem encode32_wrap32 (q : QEI) (chanA chanB : Nat) :
    q.wrap32.encode32 chanA chanB = (q.encode chanA chanB).wrap32 := by
  obtain ⟨enc, p, c, n, ppr, r⟩ := q
  have hsub : ∀ d : Int, wrapInt32 (wrapInt32 n - d) = wrapInt32 (n - d) := fun d => by
    rw [sub_eq_add_neg, wrapInt32_add, ← sub_eq_add_neg]
  cases enc <;>
    simp only [QEI.wrap32, QEI.encode32, QEI.encode] <;>
    split_ifs <;>
    simp only [wrapInt32_add, hsub]

theorem index32_wrap32 (q : QEI) : q.wrap32.index32 = q.index.wrap32 := by
  simp only [QEI.wrap32, QEI.index32, QEI.index, wrapInt32_add]

theorem reset_wrap32 (q : QEI) : q.wrap32.reset = q.reset.wrap32 := rfl

theorem step32_wrap32 (q : QEI) (e : Event) : q.wrap32.step32 e = (q.step e).wrap32 := by
  cases e with
  | encode chanA chanB => exact encode32_wrap32 q chanA chanB
  | index => exact index32_wrap32 q
  | reset => exact reset_wrap32 q

theorem run32_wrap32 (es : List Event) (q : QEI) : q.wrap32.run32 es = (q.run es).wrap32 := by
  induction es generalizing q with
  | nil => rfl
  | cons e es ih =>
    show (q.wrap32.step32 e).run32 es = ((q.step e).run es).wrap32
    rw [step32_wrap32, ih]

theorem sample32_wrap32 (q : QEI) (s : Nat) : q.wrap32.sample32 s = (q.sample s).wrap32 :=
  encode32_wrap32 q _ _

theorem edge32_wrap32 (q : QEI) (old new : Nat) :
    q.wrap32.edge32 old new = (q.edge old new).wrap32 := by
  have henc : q.wrap32.encoding_ = q.encoding_ := rfl
  unfold QEI.edge32 QEI.edge
  simp only [henc]
  split_ifs <;> simp only [sample32_wrap32]

theorem walk32_wrap32 (path : List Nat) (q : QEI) (l : Nat) :
    q.wrap32.walk32 l path = ((q.walk l path).1.wrap32, (q.walk l path).2) := by
  induction path generalizing q l with
  | nil => rfl
  | cons s ss ih =>
    show (q.wrap32.edge32 l s).walk32 s ss = _
    rw [edge32_wrap32, ih]
    rfl

theorem run32_init (a b : Nat) (pulsesPerRev : Int) (enc : Encoding) (es : List Event) :
    (QEI.init a b pulsesPerRev enc).run32 es =
      ((QEI.init a b pulsesPerRev enc).run es).wrap32 := by
  have h := run32_wrap32 es (QEI.init a b pulsesPerRev enc)
  rwa [init_wrap32] at h

theorem walk32_init (a b : Nat) (pulsesPerRev : Int) (enc : Encoding) (l : Nat)
    (path : List Nat) :
    ((QEI.init a b pulsesPerRev enc).walk32 l path).1.pulses_ =
      wrapInt32 ((QEI.init a b pulsesPerRev enc).walk l path).1.pulses_ := by
  have h := walk32_wrap32 path (QEI.init a b pulsesPerRev enc) l
  rw [init_wrap32] at h
  rw [h]
  rfl

/-- From construction and without `reset`, the 32-bit revolution counter holds the
number of index-handler calls reduced to 32 bits. -/
theorem run32_init_revolutions (a b : Nat) (pulsesPerRev : Int) (enc : Encoding)
    (es : List Event) (hes : ∀ e ∈ es, e ≠ Event.reset) :
    ((QEI.init a b pulsesPerRev enc).run32 es).revolutions_ =
      wrapInt32 ((es.countP Event.isIndex : Nat) : Int) := by
  rw [run32_init]
  show wrapInt32 ((QEI.init a b pulsesPerRev enc).run es).revolutions_ = _
  rw [run_revolutions es _ hes]
  show wrapInt32 (0 + _) = _
  rw [zero_add]

/-- From construction at 00 in X2 encoding, the 32-bit pulse counter after N forward
cycles of the lines holds `2N` reduced to 32 bits. -/
theorem walk32_init_forward_X2 (N : Nat) (pulsesPerRev : Int) :
    ((QEI.init 0 0 pulsesPerRev X2_ENCODING).walk32 0 (cycles forwardCycle N)).1.pulses_ =
      wrapInt32 (2 * (N : Int)) := by
  rw [walk32_init, (walk_init_cycles N pulsesPerRev).1]

/-- C13, as stated, fails on the 32-bit counter: after 2^31 index-handler invocations
on a freshly constructed decoder (no transition-handler invocation in between)
`revolutions_` is -2^31, not the number of invocations, 2^31. -/
theorem C13_revolutions_counterexample :
    (List.replicate 2147483648 Event.index).countP Event.isIndex = 2147483648 ∧
    ((QEI.init 0 0 1 X4_ENCODING).run32 (List.replicate 2147483648 Event.index)).revolutions_ =
      -2147483648 ∧
    ((QEI.init 0 0 1 X4_ENCODING).run32 (List.replicate 2147483648 Event.index)).revolutions_ ≠
      (((List.replicate 2147483648 Event.index).countP Event.isIndex : Nat) : Int) := by
  have hc : (List.replicate 2147483648 Event.index).countP Event.isIndex = 2147483648 :=
    (List.countP_replicate Event.isIndex Event.index 2147483648).trans (if_pos rfl)
  have hes : ∀ e ∈ List.replicate 2147483648 Event.index, e ≠ Event.reset := by
    intro e he
    have h := List.eq_of_mem_replicate he
    subst h
    exact Event.noConfusion
  have hw : wrapInt32 ((2147483648 : Nat) : Int) = -2147483648 := by decide
  have hr := run32_init_revolutions 0 0 1 X4_ENCODING _ hes
  rw [hc, hw] at hr
  refine ⟨hc, hr, ?_⟩
  rw [hr, hc]
  decide

/-- C13, amended: each invocation of the index handler increases `revolutions_` by
exactly 1 while `revolutions_` is below the largest `int`, 2^31 - 1, and changes no other
field, and the transition handler never changes `revolutions_`; hence for every finite
interleaving `es` of index-handler and transition-handler invocations (arbitrary sampled
levels) applied to a freshly constructed decoder, `revolutions_` is the number of
index-handler invocations reduced to 32 bits, so it equals that number whenever there are
fewer than 2^31 of them; and `pulses_`, `currState_` and `prevState_` equal what the
transition-handler invocations alone, in the same order, produce. -/
theorem C13_revolutions_independent (a b : Nat) (pulsesPerRev : Int) (enc : Encoding)
    (es : List Event) (hes : ∀ e ∈ es, e ≠ Event.reset) :
    (∀ q : QEI, -2147483648 ≤ q.revolutions_ → q.revolutions_ < 2147483647 →
        q.index32 = { q with revolutions_ := q.revolutions_ + 1 }) ∧
      (∀ (q : QEI) (chanA chanB : Nat),
        (q.encode32 chanA chanB).revolutions_ = q.revolutions_) ∧
      ((QEI.init a b pulsesPerRev enc).run32 es).revolutions_ =
        wrapInt32 ((es.countP Event.isIndex : Nat) : Int) ∧
      (es.countP Event.isIndex < 2147483648 →
        ((QEI.init a b pulsesPerRev enc).run32 es).revolutions_ =
          ((es.countP Event.isIndex : Nat) : Int)) ∧
      ((QEI.init a b pulsesPerRev enc).run32 es).pulses_ =
        ((QEI.init a b pulsesPerRev enc).run32 (es.filter Event.isEncode)).pulses_ ∧
      ((QEI.init a b pulsesPerRev enc).run32 es).currState_ =
        ((QEI.init a b pulsesPerRev enc).run32 (es.filter Event.isEncode)).currState_ ∧
      ((QEI.init a b pulsesPerRev enc).run32 es).prevState_ =
        ((QEI.init a b pulsesPerRev enc).run32 (es.filter Event.isEncode)).prevState_ := by
  obtain ⟨_, h2, h3, h4, _⟩ :=
    run_sameDecoding es (QEI.init a b pulsesPerRev enc) (QEI.init a b pulsesPerRev enc)
      ⟨rfl, rfl, rfl, rfl, rfl⟩ hes
  have hrev := run32_init_revolutions a b pulsesPerRev enc es hes
  refine ⟨fun q hlo hhi => ?_, fun _ _ _ => rfl, hrev, fun hlt => ?_, ?_, ?_, ?_⟩
  · have hw : wrapInt32 (q.revolutions_ + 1) = q.revolutions_ + 1 :=
      wrapInt32_of_range _ (by omega) (by omega)
    simp only [QEI.index32, hw]
  · rw [hrev]
    exact wrapInt32_of_range _ (by omega) (by omega)
  · rw [run32_init, run32_init]
    show wrapInt32 _ = wrapInt32 _
    rw [h4]
  · rw [run32_init, run32_init]
    exact h3
  · rw [run32_init, run32_init]
    exact h2

theorem C13_revolutions_independent_witness :
    ((QEI.init 0 0 100 X4_ENCODING).run32
        [Event.encode 0 1, Event.index, Event.encode 1 1, Event.index]).revolutions_ =
        (([Event.encode 0 1, Event.index, Event.encode 1 1, Event.index].countP
          Event.isIndex : Nat) : Int) ∧
      ((QEI.init 0 0 100 X4_ENCODING).run32
        [Event.encode 0 1, Event.index, Event.encode 1 1, Event.index]).pulses_ =
        ((QEI.init 0 0 100 X4_ENCODING).run32
          ([Event.encode 0 1, Event.index, Event.encode 1 1, Event.index].filter
            Event.isEncode)).pulses_ :=
  have h := C13_revolutions_independent 0 0 100 X4_ENCODING
    [Event.encode 0 1, Event.index, Event.encode 1 1, Event.index] (by decide)
  ⟨h.2.2.2.1 (by decide), h.2.2.2.2.1⟩

/-- C19, as stated, fails on the 32-bit counter: for an X2 decoder constructed at 00,
N = 2^30 repetitions of the forward cycle 00 -> 01 -> 11 -> 10 -> 00 under the
channel-A trigger pattern end with `pulses_ = -2^31`, not `+2N = 2^31`. -/
theorem C19_X2_real_trigger_counterexample :
    ((QEI.init 0 0 1 X2_ENCODING).walk32 0 (cycles forwardCycle 1073741824)).1.pulses_ =
      -2147483648 ∧
    ((QEI.init 0 0 1 X2_ENCODING).walk32 0 (cycles forwardCycle 1073741824)).1.pulses_ ≠
      2 * ((1073741824 : Nat) : Int) := by
  have hw : wrapInt32 (2 * ((1073741824 : Nat) : Int)) = -2147483648 := by decide
  have h := walk32_init_forward_X2 1073741824 1
  rw [hw] at h
  refine ⟨h, ?_⟩
  rw [h]
  decide

/-- C19, amended: X2 encoding under the trigger pattern the constructor registers
(transition handler only on a change of channel A): for a decoder constructed with both
lines at 00 and the lines following a legal Gray walk, N repetitions of the forward cycle
00 -> 01 -> 11 -> 10 -> 00 end with `pulses_ = +2N` as long as 2N fits the `int` counter
(2N < 2^31), and N >= 1 repetitions of the reverse cycle 00 -> 10 -> 11 -> 01 -> 00 end
with `pulses_ = -(2N - 1)` as long as 2N - 1 <= 2^31 (the first channel-A edge after
construction, 00 -> 10, is not counted); X4 encoding on the same walks ends with `+4N`
(4N < 2^31) and `-4N` (4N <= 2^31), so X2 reports the same sign as X4, at two pulses per
cycle. -/
theorem C19_X2_real_trigger_pattern (N : Nat) (pulsesPerRev : Int) :
    (2 * N < 2147483648 →
        ((QEI.init 0 0 pulsesPerRev X2_ENCODING).walk32 0 (cycles forwardCycle N)).1.pulses_ =
          2 * (N : Int)) ∧
      (1 ≤ N → 2 * N - 1 ≤ 2147483648 →
        ((QEI.init 0 0 pulsesPerRev X2_ENCODING).walk32 0 (cycles reverseCycle N)).1.pulses_ =
          -(2 * (N : Int) - 1)) ∧
      ((QEI.init 0 0 pulsesPerRev X2_ENCODING).walk32 0 [0b10]).1.pulses_ = 0 ∧
      (4 * N < 2147483648 →
        ((QEI.init 0 0 pulsesPerRev X4_ENCODING).walk32 0 (cycles forwardCycle N)).1.pulses_ =
          4 * (N : Int)) ∧
      (4 * N ≤ 2147483648 →
        ((QEI.init 0 0 pulsesPerRev X4_ENCODING).walk32 0 (cycles reverseCycle N)).1.pulses_ =
          -(4 * (N : Int))) := by
  obtain ⟨hf2, hr2, h1, hf4, hr4⟩ := walk_init_cycles N pulsesPerRev
  refine ⟨fun hN => ?_, fun hN hle => ?_, ?_, fun hN => ?_, fun hN => ?_⟩
  · rw [walk32_init, hf2]
    exact wrapInt32_of_range _ (by omega) (by omega)
  · rw [walk32_init, hr2 hN]
    exact wrapInt32_of_range _ (by omega) (by omega)
  · rw [walk32_init, h1]
    rfl
  · rw [walk32_init, hf4]
    exact wrapInt32_of_range _ (by omega) (by omega)
  · rw [walk32_init, hr4]
    exact wrapInt32_of_range _ (by omega) (by omega)

theorem C19_X2_real_trigger_pattern_witness :
    ((QEI.init 0 0 1 X2_ENCODING).walk32 0 (cycles forwardCycle 2)).1.pulses_ =
        2 * ((2 : Nat) : Int) ∧
      ((QEI.init 0 0 1 X2_ENCODING).walk32 0 (cycles reverseCycle 2)).1.pulses_ =
        -(2 * ((2 : Nat) : Int) - 1) :=
  have h := C19_X2_real_trigger_pattern 2 1
  ⟨h.1 (by decide), h.2.1 (by decide) (by decide)⟩
